import Mathlib

/-!
Shallow embedding of `src/jsonParser.ts` (class `JSONParser`) from the
ts-json-parser repository, together with theorems settling the frozen claims
about its specification.

Modelling conventions:
* A JavaScript string is a sequence of UTF-16 code units; we model it as
  `List Nat` (each element a code unit).  The TypeScript code indexes the
  input by position (`this.input[this.pos]`), which in JavaScript yields a
  one-unit string or `undefined` when out of range; we model that lookup as
  `input[pos]?  : Option Nat`.  A comparison such as
  `this.input[this.pos] === '-'` is `input[pos]? == some 0x2D`
  (`undefined === '-'` is false, matching the `none` case).
* The parser state is the cursor `pos : Nat`; each routine takes `pos` and
  returns the parsed result together with the new cursor, or a
  `JSONParseError` (the thrown exception), via `Except`.
* The mutually recursive routines (`parseValue`/`parseObject`/`parseArray`)
  take a fuel parameter for structural termination.  `parseTop` supplies
  `4 * (input.length + 1)` fuel, which is never exhausted on real runs
  (every recursive call follows consumption of at least one input unit);
  the fuel-exhaustion branch returns a distinguished error so that the
  bound theorems remain unconditional in the fuel.
* The only part of the source not embedded verbatim is the conversion
  `Number(numberStr)` to a double together with `Number.isFinite`: the
  number literal has been fully validated at that point, so the conversion
  is total and yields a finite double exactly when the literal magnitude is
  below the IEEE-754 binary64 overflow threshold `2^1024 - 2^970`
  (round-to-nearest-even).  `jsNumberIsFinite` decides that predicate
  exactly with integer arithmetic, and the parsed number value is
  represented by its validated literal (`JSONValue.num lit`) rather than a
  floating-point approximation.
-/

namespace TsJson

/-- A JavaScript string: its list of UTF-16 code units. -/
abbrev JSStr := List Nat

/-- Encode a Lean string literal as JS code units.  All literals used in this
development are ASCII, for which the code points coincide with the UTF-16
units. -/
def jsOfString (s : String) : JSStr := s.toList.map Char.toNat

/-- Mirror of the `JSONParseError` class: the human-readable message and the
cursor position at which the failure was detected (`src/jsonParser.ts`,
lines 18-26). -/
structure JSONParseError where
  msg : String
  position : Nat
deriving DecidableEq, Repr

/-- Mirror of the `JSONValue` union type (`src/jsonParser.ts`, lines 4-16).
Objects keep their property list in JavaScript insertion order (see
`objInsert`); numbers carry their validated literal (see the header note). -/
inductive JSONValue where
  | null
  | bool (b : Bool)
  | num (lit : JSStr)
  | str (s : JSStr)
  | arr (elems : List JSONValue)
  | obj (entries : List (JSStr × JSONValue))

/-- `isWhitespace` (`src/jsonParser.ts`, lines 344-346): space, tab, newline,
carriage return. -/
def isWhitespace (u : Nat) : Bool :=
  u == 0x20 || u == 0x09 || u == 0x0A || u == 0x0D

/-- `isDigit` (`src/jsonParser.ts`, lines 348-350): the JS comparison
`char >= '0' && char <= '9'` on a one-unit string. -/
def isDigit (u : Nat) : Bool :=
  0x30 ≤ u && u ≤ 0x39

/-- The frequent source pattern `this.pos < this.length &&
this.isDigit(this.input[this.pos])` (equivalently
`this.isDigit(this.input[this.pos])`, since `isDigit(undefined)` is false). -/
def digitAt (input : JSStr) (pos : Nat) : Bool :=
  match input[pos]? with
  | some u => isDigit u
  | none => false

/-- Render one code unit for interpolation into an error message.  For units
that are not valid Unicode scalar values `Char.ofNat` falls back to NUL; all
messages compared exactly in this development involve ASCII units only. -/
def unitChar (u : Nat) : String := String.singleton (Char.ofNat u)

/-- Render a unit sequence for interpolation into an error message. -/
def unitsToString (us : JSStr) : String :=
  us.foldl (fun s u => s ++ unitChar u) ""

/-- The error returned by the fuel-exhaustion branches of the embedding
(unreachable with the fuel supplied by `parseTop`; see header note). -/
def fuelMsg : String := "[embedding fuel exhausted]"

/-- The loop of `skipWhitespace` (`src/jsonParser.ts`, lines 338-342):
`while (this.pos < this.length && this.isWhitespace(this.input[this.pos]))
this.pos++`. -/
def skipWhitespaceF : Nat → JSStr → Nat → Nat
  | 0, _, pos => pos
  | fuel + 1, input, pos =>
    match input[pos]? with
    | some u => if isWhitespace u then skipWhitespaceF fuel input (pos + 1) else pos
    | none => pos

/-- `skipWhitespace`, with fuel ample for any cursor within bounds. -/
def skipWhitespace (input : JSStr) (pos : Nat) : Nat :=
  skipWhitespaceF (input.length + 1) input pos

/-- One digit-run loop of `parseNumber` (`src/jsonParser.ts`, e.g. lines
272-274): `while (this.pos < this.length && this.isDigit(...)) this.pos++`. -/
def skipDigitsF : Nat → JSStr → Nat → Nat
  | 0, _, pos => pos
  | fuel + 1, input, pos =>
    if digitAt input pos then skipDigitsF fuel input (pos + 1) else pos

/-- A digit run, with ample fuel. -/
def skipDigits (input : JSStr) (pos : Nat) : Nat :=
  skipDigitsF (input.length + 1) input pos

/-- One character of the regex class `[0-9a-fA-F]` (`src/jsonParser.ts`,
line 231). -/
def isHexDigit (u : Nat) : Bool :=
  (0x30 ≤ u && u ≤ 0x39) || (0x61 ≤ u && u ≤ 0x66) || (0x41 ≤ u && u ≤ 0x46)

/-- Value of one hex digit (used by `parseInt(hexCode, 16)`). -/
def hexDigitVal (u : Nat) : Nat :=
  if 0x30 ≤ u && u ≤ 0x39 then u - 0x30
  else if 0x61 ≤ u && u ≤ 0x66 then u - 0x61 + 10
  else if 0x41 ≤ u && u ≤ 0x46 then u - 0x41 + 10
  else 0

/-- `parseInt(hexCode, 16)` on a validated 4-hex-digit unit sequence
(`src/jsonParser.ts`, line 234). -/
def hexNum (us : JSStr) : Nat :=
  us.foldl (fun acc u => acc * 16 + hexDigitVal u) 0

/-- The `while` body of `parseString` (`src/jsonParser.ts`, lines 185-248),
entered with the cursor just past the opening quote; `acc` is the `result`
accumulator.  Exiting the loop (cursor at end of input) throws
`Unterminated string` (line 250). -/
def parseStringLoop : Nat → JSStr → Nat → JSStr → Except JSONParseError (JSStr × Nat)
  | 0, _, pos, _ => .error ⟨fuelMsg, pos⟩
  | fuel + 1, input, pos, acc =>
    match input[pos]? with
    | none => .error ⟨"Unterminated string", pos⟩
    | some c =>
      if c == 0x22 then
        -- closing '"'
        .ok (acc, pos + 1)
      else if c == 0x5C then
        -- escape: `this.pos++` then bounds check (lines 194-197)
        match input[pos + 1]? with
        | none => .error ⟨"Unterminated string escape sequence", pos + 1⟩
        | some e =>
          -- the `switch (escapeChar)` of the source (lines 200-239)
          match e with
          | 0x22 => parseStringLoop fuel input (pos + 2) (acc ++ [0x22])
          | 0x5C => parseStringLoop fuel input (pos + 2) (acc ++ [0x5C])
          | 0x2F => parseStringLoop fuel input (pos + 2) (acc ++ [0x2F])
          | 0x62 => parseStringLoop fuel input (pos + 2) (acc ++ [0x08])
          | 0x66 => parseStringLoop fuel input (pos + 2) (acc ++ [0x0C])
          | 0x6E => parseStringLoop fuel input (pos + 2) (acc ++ [0x0A])
          | 0x72 => parseStringLoop fuel input (pos + 2) (acc ++ [0x0D])
          | 0x74 => parseStringLoop fuel input (pos + 2) (acc ++ [0x09])
          | 0x75 =>
            -- `\uXXXX` (lines 225-236); the cursor sits at the `u`, i.e. pos+1
            if input.length ≤ pos + 5 then
              .error ⟨"Incomplete unicode escape sequence", pos + 1⟩
            else
              let hexCode := (input.drop (pos + 2)).take 4
              if hexCode.all isHexDigit then
                parseStringLoop fuel input (pos + 6) (acc ++ [hexNum hexCode])
              else
                .error ⟨"Invalid unicode escape sequence \\u" ++ unitsToString hexCode,
                  pos + 1⟩
          | _ => .error ⟨"Invalid escape sequence \\" ++ unitChar e, pos + 1⟩
      else if c < 0x20 && c != 0x09 then
        -- raw control characters other than tab (lines 240-242)
        .error ⟨"Unescaped control character (code " ++ toString c ++ ")", pos⟩
      else
        parseStringLoop fuel input (pos + 1) (acc ++ [c])

/-- `parseString` (`src/jsonParser.ts`, lines 181-251): skip the opening
quote, then run the accumulation loop. -/
def parseString (input : JSStr) (pos : Nat) : Except JSONParseError (JSStr × Nat) :=
  parseStringLoop (input.length + 1) input (pos + 1) []

/-- Optional leading `-` of `parseNumber` (`src/jsonParser.ts`, lines
256-262): after consuming the sign, a digit must follow (else
`Invalid number format` at the cursor, one past the `-`). -/
def numSignPos (input : JSStr) (start : Nat) : Except JSONParseError Nat :=
  match input[start]? with
  | some 0x2D =>
    if digitAt input (start + 1) then .ok (start + 1)
    else .error ⟨"Invalid number format", start + 1⟩
  | _ => .ok start

/-- Integer part of `parseNumber` (`src/jsonParser.ts`, lines 264-277):
a single `0` (with a following digit rejected as a leading zero), or a
nonzero digit run, else `Invalid number format`. -/
def numIntEnd (input : JSStr) (pos : Nat) : Except JSONParseError Nat :=
  match input[pos]? with
  | some 0x30 =>
    if digitAt input (pos + 1) then
      .error ⟨"Invalid number: leading zeros not allowed", pos + 1⟩
    else .ok (pos + 1)
  | _ =>
    if digitAt input pos then .ok (skipDigits input pos)
    else .error ⟨"Invalid number format", pos⟩

/-- Fractional part of `parseNumber` (`src/jsonParser.ts`, lines 279-288). -/
def numFracEnd (input : JSStr) (pos : Nat) : Except JSONParseError Nat :=
  match input[pos]? with
  | some 0x2E =>
    if digitAt input (pos + 1) then .ok (skipDigits input (pos + 1))
    else .error ⟨"Invalid number: decimal point must be followed by digits", pos + 1⟩
  | _ => .ok pos

/-- Exponent part of `parseNumber` (`src/jsonParser.ts`, lines 290-302). -/
def numExpEnd (input : JSStr) (pos : Nat) : Except JSONParseError Nat :=
  match input[pos]? with
  | some 0x65 | some 0x45 =>
    let pos2 : Nat :=
      if input[pos + 1]? == some 0x2B || input[pos + 1]? == some 0x2D then pos + 2
      else pos + 1
    if digitAt input pos2 then .ok (skipDigits input pos2)
    else .error ⟨"Invalid number: exponent must contain digits", pos2⟩
  | _ => .ok pos

/-- Leading sign of a validated number literal. -/
def splitSign : JSStr → Bool × JSStr
  | 0x2D :: rest => (true, rest)
  | us => (false, us)

/-- Split off the leading digit run of a unit sequence. -/
def takeDigitsU : JSStr → JSStr × JSStr
  | u :: us =>
    if isDigit u then
      let (ds, r) := takeDigitsU us
      (u :: ds, r)
    else ([], u :: us)
  | [] => ([], [])

/-- Numeric value of a digit run. -/
def digitsVal (ds : JSStr) : Nat :=
  ds.foldl (fun a u => a * 10 + (u - 0x30)) 0

/-- The IEEE-754 binary64 overflow threshold `2 ^ 1024 - 2 ^ 970`, written as
an explicit numeral (round-to-nearest-even sends any decimal value of at
least this magnitude to infinity, and any smaller one to a finite double). -/
def binary64Bound : Nat :=
  179769313486231580793728971405303415079934132710037826936173778980444968292764750946649017977587207096330286416692887910946555547851940402630657488671505820681908902000708383676273854845817711531764475730270069855571366959622842914819860834936475292719074168444365510704342711559699508093042880177904174497792

theorem binary64Bound_eq : binary64Bound = 2 ^ 1024 - 2 ^ 970 := by norm_num [binary64Bound]

/-- Exact model of `Number.isFinite(Number(numberStr))` on a literal already
validated by the JSON number grammar (see the header note): the decimal
magnitude `D * 10^t` is below the binary64 overflow threshold
`2^1024 - 2^970`. -/
def jsNumberIsFinite (lit : JSStr) : Bool :=
  let (_, rest1) := splitSign lit
  let (ints, rest2) := takeDigitsU rest1
  let (fracs, rest3) :=
    match rest2 with
    | 0x2E :: r => takeDigitsU r
    | _ => ([], rest2)
  let expVal : Int :=
    match rest3 with
    | 0x65 :: r | 0x45 :: r =>
      match r with
      | 0x2B :: r2 => (digitsVal (takeDigitsU r2).1 : Int)
      | 0x2D :: r2 => -(digitsVal (takeDigitsU r2).1 : Int)
      | _ => (digitsVal (takeDigitsU r).1 : Int)
    | _ => 0
  let D : Nat := digitsVal (ints ++ fracs)
  let t : Int := expVal - fracs.length
  if 0 ≤ t then decide (D * 10 ^ t.toNat < binary64Bound)
  else decide (D < binary64Bound * 10 ^ (-t).toNat)

/-- `parseNumber` (`src/jsonParser.ts`, lines 253-312): validate the number
grammar from `start`, slice out the literal, and fail with
`Invalid number: <literal>` anchored at `start` when the converted double
would be infinite.  The successful result carries the validated literal. -/
def parseNumber (input : JSStr) (start : Nat) : Except JSONParseError (JSStr × Nat) := do
  let p1 ← numSignPos input start
  let p2 ← numIntEnd input p1
  let p3 ← numFracEnd input p2
  let p4 ← numExpEnd input p3
  let numberStr := (input.drop start).take (p4 - start)
  if jsNumberIsFinite numberStr then .ok (numberStr, p4)
  else .error ⟨"Invalid number: " ++ unitsToString numberStr, start⟩

/-- `parseTrue` (`src/jsonParser.ts`, lines 314-320):
`this.input.slice(this.pos, this.pos + 4) === 'true'`. -/
def parseTrue (input : JSStr) (pos : Nat) : Except JSONParseError (Bool × Nat) :=
  if (input.drop pos).take 4 == [0x74, 0x72, 0x75, 0x65] then .ok (true, pos + 4)
  else .error ⟨"Expected \x27true\x27", pos⟩

/-- `parseFalse` (`src/jsonParser.ts`, lines 322-328). -/
def parseFalse (input : JSStr) (pos : Nat) : Except JSONParseError (Bool × Nat) :=
  if (input.drop pos).take 5 == [0x66, 0x61, 0x6C, 0x73, 0x65] then .ok (false, pos + 5)
  else .error ⟨"Expected \x27false\x27", pos⟩

/-- `parseNull` (`src/jsonParser.ts`, lines 330-336). -/
def parseNull (input : JSStr) (pos : Nat) : Except JSONParseError (Unit × Nat) :=
  if (input.drop pos).take 4 == [0x6E, 0x75, 0x6C, 0x6C] then .ok ((), pos + 4)
  else .error ⟨"Expected \x27null\x27", pos⟩

/-- The JavaScript property store update `obj[key] = value` on a plain
object (`src/jsonParser.ts`, line 139): an existing key keeps its place in
the property list and its value is overwritten; a new key is appended. -/
def objInsert (entries : List (JSStr × JSONValue)) (k : JSStr) (v : JSONValue) :
    List (JSStr × JSONValue) :=
  if entries.any (fun e => e.1 == k) then
    entries.map (fun e => if e.1 == k then (k, v) else e)
  else entries ++ [(k, v)]

mutual

/-- `parseValue` (`src/jsonParser.ts`, lines 59-90): skip whitespace and
dispatch on the next unit. -/
def parseValueF : Nat → JSStr → Nat → Except JSONParseError (JSONValue × Nat)
  | 0, _, pos => .error ⟨fuelMsg, pos⟩
  | fuel + 1, input, pos0 =>
    let pos := skipWhitespace input pos0
    match input[pos]? with
    | none => .error ⟨"Unexpected end of JSON input", pos⟩
    | some c =>
      -- the `switch (char)` of the source (lines 68-89)
      match c with
      | 0x7B => parseObjectF fuel input pos
      | 0x5B => parseArrayF fuel input pos
      | 0x22 => do
        let (s, p) ← parseString input pos
        .ok (.str s, p)
      | 0x74 => do
        let (b, p) ← parseTrue input pos
        .ok (.bool b, p)
      | 0x66 => do
        let (b, p) ← parseFalse input pos
        .ok (.bool b, p)
      | 0x6E => do
        let (_, p) ← parseNull input pos
        .ok (.null, p)
      | 0x2D | 0x30 | 0x31 | 0x32 | 0x33 | 0x34 | 0x35 | 0x36 | 0x37 | 0x38 | 0x39 => do
        let (lit, p) ← parseNumber input pos
        .ok (.num lit, p)
      | _ => .error ⟨"Unexpected token \x27" ++ unitChar c ++ "\x27", pos⟩
termination_by structural fuel _ _ => fuel

/-- `parseObject` (`src/jsonParser.ts`, lines 92-143), entered at the `{`:
skip it and leading whitespace, short-circuit the empty object, else run the
member loop. -/
def parseObjectF : Nat → JSStr → Nat → Except JSONParseError (JSONValue × Nat)
  | 0, _, pos => .error ⟨fuelMsg, pos⟩
  | fuel + 1, input, pos0 =>
    let pos := skipWhitespace input (pos0 + 1)
    match input[pos]? with
    | some 0x7D => .ok (.obj [], pos + 1)
    | _ => parseObjectLoopF fuel input pos [] true
termination_by structural fuel _ _ => fuel

/-- One `key : value` member of an object (`src/jsonParser.ts`, lines
121-139): skip whitespace, require `"`, parse the key, skip whitespace,
require `:`, parse the value, store it with `obj[key] = value`. -/
def parseObjectEntryF : Nat → JSStr → Nat → List (JSStr × JSONValue) →
    Except JSONParseError (List (JSStr × JSONValue) × Nat)
  | 0, _, pos, _ => .error ⟨fuelMsg, pos⟩
  | fuel + 1, input, pos, entries =>
    let posB := skipWhitespace input pos
    match input[posB]? with
    | some 0x22 => do
      let (key, posC) ← parseString input posB
      let posD := skipWhitespace input posC
      match input[posD]? with
      | some 0x3A => do
        let (v, posE) ← parseValueF fuel input (posD + 1)
        .ok (objInsert entries key v, posE)
      | _ => .error ⟨"Expected \x27:\x27 after key", posD⟩
    | _ => .error ⟨"Expected string key", posB⟩
termination_by structural fuel _ _ _ => fuel

/-- The `while (this.pos < this.length)` member loop of `parseObject`
(`src/jsonParser.ts`, lines 104-142).  When the loop guard fails the object
is unterminated (line 142); from the second iteration on, the iteration
starts by skipping whitespace and dispatching on `}` / `,` (lines 105-118). -/
def parseObjectLoopF : Nat → JSStr → Nat → List (JSStr × JSONValue) → Bool →
    Except JSONParseError (JSONValue × Nat)
  | 0, _, pos, _, _ => .error ⟨fuelMsg, pos⟩
  | fuel + 1, input, pos, entries, first =>
    if pos < input.length then
      if first then do
        let (entries2, pos2) ← parseObjectEntryF fuel input pos entries
        parseObjectLoopF fuel input pos2 entries2 false
      else
        let posA := skipWhitespace input pos
        match input[posA]? with
        | none => .error ⟨"Unexpected end of JSON input", posA⟩
        | some 0x7D => .ok (.obj entries, posA + 1)
        | some 0x2C => do
          let (entries2, pos2) ← parseObjectEntryF fuel input (posA + 1) entries
          parseObjectLoopF fuel input pos2 entries2 false
        | some c =>
          .error ⟨"Expected \x27,\x27 or \x27\x7d\x27 but got \x27" ++ unitChar c ++ "\x27", posA⟩
    else .error ⟨"Unterminated object", pos⟩
termination_by structural fuel _ _ _ _ => fuel

/-- `parseArray` (`src/jsonParser.ts`, lines 145-179), entered at the `[`. -/
def parseArrayF : Nat → JSStr → Nat → Except JSONParseError (JSONValue × Nat)
  | 0, _, pos => .error ⟨fuelMsg, pos⟩
  | fuel + 1, input, pos0 =>
    let pos := skipWhitespace input (pos0 + 1)
    match input[pos]? with
    | some 0x5D => .ok (.arr [], pos + 1)
    | _ => parseArrayLoopF fuel input pos [] true
termination_by structural fuel _ _ => fuel

/-- The element loop of `parseArray` (`src/jsonParser.ts`, lines 157-178),
symmetric to the object member loop. -/
def parseArrayLoopF : Nat → JSStr → Nat → List JSONValue → Bool →
    Except JSONParseError (JSONValue × Nat)
  | 0, _, pos, _, _ => .error ⟨fuelMsg, pos⟩
  | fuel + 1, input, pos, elems, first =>
    if pos < input.length then
      if first then do
        let (v, pos2) ← parseValueF fuel input pos
        parseArrayLoopF fuel input pos2 (elems ++ [v]) false
      else
        let posA := skipWhitespace input pos
        match input[posA]? with
        | none => .error ⟨"Unexpected end of JSON input", posA⟩
        | some 0x5D => .ok (.arr elems, posA + 1)
        | some 0x2C => do
          let (v, pos2) ← parseValueF fuel input (posA + 1)
          parseArrayLoopF fuel input pos2 (elems ++ [v]) false
        | some c =>
          .error ⟨"Expected \x27,\x27 or \x27]\x27 but got \x27" ++ unitChar c ++ "\x27", posA⟩
    else .error ⟨"Unterminated array", pos⟩
termination_by structural fuel _ _ _ _ => fuel

end

/-- `parse` (`src/jsonParser.ts`, lines 41-57): reset the cursor, skip
leading whitespace, fail on exhausted input, parse one value, skip trailing
whitespace, and fail on any remaining unit. -/
def parseTop (input : JSStr) : Except JSONParseError JSONValue :=
  let pos := skipWhitespace input 0
  match input[pos]? with
  | none => .error ⟨"Unexpected end of JSON input", pos⟩
  | some _ => do
    let (v, pos2) ← parseValueF (4 * (input.length + 1)) input pos
    let posE := skipWhitespace input pos2
    match input[posE]? with
    | some c => .error ⟨"Unexpected token \x27" ++ unitChar c ++ "\x27", posE⟩
    | none => .ok v

/-- `parseJSON` (`src/jsonParser.ts`, lines 354-357) on a Lean string
literal. -/
def parseJSON (s : String) : Except JSONParseError JSONValue :=
  parseTop (jsOfString s)

/-- Property lookup `obj[key]` on the modelled property list. -/
def objLookup (entries : List (JSStr × JSONValue)) (k : JSStr) : Option JSONValue :=
  (entries.find? (fun e => e.1 == k)).map (fun e => e.2)

/-- Numeric value of a canonical decimal key. -/
def keyNatVal (k : JSStr) : Nat :=
  k.foldl (fun a u => a * 10 + (u - 0x30)) 0

/-- Whether a property key is an *array index* in the ECMAScript sense
(ECMA-262, "array index"): a canonical decimal string whose numeric value is
below `2^32 - 1`.  Such keys are enumerated before all other string keys. -/
def isArrayIndexKey (k : JSStr) : Bool :=
  !k.isEmpty && k.all isDigit && (k == [0x30] || k.head? != some 0x30)
    && keyNatVal k < 4294967295

/-- Insert a key into a list of array-index keys sorted by numeric value. -/
def insertByIdx (k : JSStr) : List JSStr → List JSStr
  | [] => [k]
  | m :: ms => if keyNatVal k ≤ keyNatVal m then k :: m :: ms else m :: insertByIdx k ms

/-- The own-property-key enumeration order of a plain JavaScript object
(ECMA-262 `OrdinaryOwnPropertyKeys`, the order seen by `Object.keys`,
`for...in` and the `JSON.stringify` call in `src/main.ts`, line 33): array
indices first in ascending numeric order, then the remaining string keys in
property-creation order. -/
def jsOwnKeys (entries : List (JSStr × JSONValue)) : List JSStr :=
  let ks := entries.map Prod.fst
  (ks.filter isArrayIndexKey).foldr insertByIdx [] ++
    ks.filter (fun k => !isArrayIndexKey k)

/-- Bounds relation for a parsing-step result: the resulting cursor (or the
position carried by the thrown error) lies between the entry cursor and the
input length. -/
def resBound {α : Type} (pos len : Nat) : Except JSONParseError (α × Nat) → Prop
  | .ok (_, p2) => pos ≤ p2 ∧ p2 ≤ len
  | .error e => pos ≤ e.position ∧ e.position ≤ len

theorem resBound_ok {α : Type} {pos len p2 : Nat} {a : α} :
    resBound pos len (.ok (a, p2)) ↔ pos ≤ p2 ∧ p2 ≤ len := Iff.rfl

theorem resBound_error {α : Type} {pos len : Nat} {e : JSONParseError} :
    resBound (α := α) pos len (.error e) ↔ pos ≤ e.position ∧ e.position ≤ len := Iff.rfl

theorem resBound_mk_error {α : Type} {pos len p : Nat} {m : String}
    (h1 : pos ≤ p) (h2 : p ≤ len) :
    resBound (α := α) pos len (.error ⟨m, p⟩) := ⟨h1, h2⟩

theorem resBound_mk_ok {α : Type} {pos len p : Nat} {a : α}
    (h1 : pos ≤ p) (h2 : p ≤ len) :
    resBound pos len (.ok (a, p)) := ⟨h1, h2⟩

theorem resBound_weaken {α : Type} {p q len : Nat} {r : Except JSONParseError (α × Nat)}
    (hpq : p ≤ q) (h : resBound q len r) : resBound p len r := by
  cases r with
  | ok x => exact ⟨Nat.le_trans hpq h.1, h.2⟩
  | error e => exact ⟨Nat.le_trans hpq h.1, h.2⟩

theorem lt_length_of_getElem?_eq_some {l : JSStr} {i u : Nat} (h : l[i]? = some u) :
    i < l.length := by
  rcases List.getElem?_eq_some_iff.mp h with ⟨hi, _⟩
  exact hi

theorem digitAt_lt_length {input : JSStr} {pos : Nat} (h : digitAt input pos = true) :
    pos < input.length := by
  unfold digitAt at h
  cases hc : input[pos]? with
  | none => rw [hc] at h; exact absurd h (by simp)
  | some u => exact lt_length_of_getElem?_eq_some hc

theorem skipWhitespaceF_ge (fuel : Nat) (input : JSStr) (pos : Nat) :
    pos ≤ skipWhitespaceF fuel input pos := by
  induction fuel generalizing pos with
  | zero => exact Nat.le_refl _
  | succ n ih =>
    unfold skipWhitespaceF
    cases hc : input[pos]? with
    | none => exact Nat.le_refl _
    | some u =>
      cases hw : isWhitespace u with
      | false => simp only [hw, if_neg]; exact Nat.le_refl _
      | true =>
        simp only [hw, if_pos]
        exact Nat.le_trans (Nat.le_succ pos) (ih (pos + 1))

theorem skipWhitespaceF_le (fuel : Nat) (input : JSStr) (pos : Nat)
    (h : pos ≤ input.length) : skipWhitespaceF fuel input pos ≤ input.length := by
  induction fuel generalizing pos with
  | zero => exact h
  | succ n ih =>
    unfold skipWhitespaceF
    cases hc : input[pos]? with
    | none => exact h
    | some u =>
      cases hw : isWhitespace u with
      | false => simp only [hw]; exact h
      | true =>
        simp only [hw, if_pos]
        exact ih (pos + 1) (lt_length_of_getElem?_eq_some hc)

theorem skipWhitespace_ge (input : JSStr) (pos : Nat) :
    pos ≤ skipWhitespace input pos := skipWhitespaceF_ge _ input pos

theorem skipWhitespace_le (input : JSStr) (pos : Nat) (h : pos ≤ input.length) :
    skipWhitespace input pos ≤ input.length := skipWhitespaceF_le _ input pos h

theorem skipDigitsF_ge (fuel : Nat) (input : JSStr) (pos : Nat) :
    pos ≤ skipDigitsF fuel input pos := by
  induction fuel generalizing pos with
  | zero => exact Nat.le_refl _
  | succ n ih =>
    unfold skipDigitsF
    cases hd : digitAt input pos with
    | false => simp
    | true =>
      simp only [if_pos]
      exact Nat.le_trans (Nat.le_succ pos) (ih (pos + 1))

theorem skipDigitsF_le (fuel : Nat) (input : JSStr) (pos : Nat)
    (h : pos ≤ input.length) : skipDigitsF fuel input pos ≤ input.length := by
  induction fuel generalizing pos with
  | zero => exact h
  | succ n ih =>
    unfold skipDigitsF
    cases hd : digitAt input pos with
    | false => simpa using h
    | true =>
      simp only [if_pos]
      exact ih (pos + 1) (digitAt_lt_length hd)

theorem skipDigits_ge (input : JSStr) (pos : Nat) : pos ≤ skipDigits input pos :=
  skipDigitsF_ge _ input pos

theorem skipDigits_le (input : JSStr) (pos : Nat) (h : pos ≤ input.length) :
    skipDigits input pos ≤ input.length := skipDigitsF_le _ input pos h

theorem parseStringLoop_bound_aux (fuel : Nat) (input : JSStr) :
    ∀ pos acc r, pos ≤ input.length → parseStringLoop fuel input pos acc = r →
      resBound pos input.length r := by
  induction fuel with
  | zero =>
    intro pos acc r h hr
    rw [parseStringLoop] at hr
    subst hr
    exact ⟨Nat.le_refl _, h⟩
  | succ n ih =>
    intro pos acc r h hr
    have hrec : ∀ k acc2, pos + k ≤ input.length →
        parseStringLoop n input (pos + k) acc2 = r → resBound pos input.length r :=
      fun k acc2 hk hr2 => resBound_weaken (Nat.le_add_right _ _) (ih (pos + k) acc2 r hk hr2)
    rw [parseStringLoop] at hr
    split at hr
    · subst hr; exact resBound_mk_error (Nat.le_refl _) h
    · next c hc =>
      have hlt : pos < input.length := lt_length_of_getElem?_eq_some hc
      split at hr
      · subst hr; exact resBound_mk_ok (Nat.le_succ _) hlt
      · split at hr
        · split at hr
          · subst hr; exact resBound_mk_error (Nat.le_succ _) (by omega)
          · next e he =>
            have hlt2 : pos + 1 < input.length := lt_length_of_getElem?_eq_some he
            simp only [] at hr
            repeat' split at hr
            all_goals first
              | exact hrec 2 _ (by omega) hr
              | exact hrec 6 _ (by omega) hr
              | (subst hr; exact resBound_mk_error (Nat.le_succ _) (by omega))
        · split at hr
          · subst hr; exact resBound_mk_error (Nat.le_refl _) (Nat.le_of_lt hlt)
          · exact hrec 1 _ (by omega) hr

theorem parseStringLoop_bound (fuel : Nat) (input : JSStr) (pos : Nat) (acc : JSStr)
    (h : pos ≤ input.length) :
    resBound pos input.length (parseStringLoop fuel input pos acc) :=
  parseStringLoop_bound_aux fuel input pos acc _ h rfl

theorem parseString_bound (input : JSStr) (pos : Nat) (h : pos < input.length) :
    resBound pos input.length (parseString input pos) := by
  unfold parseString
  exact resBound_weaken (Nat.le_succ _) (parseStringLoop_bound _ input (pos + 1) [] h)

/-- Bounds relation for the cursor-valued helper steps of `parseNumber`. -/
def posBound (pos len : Nat) : Except JSONParseError Nat → Prop
  | .ok p2 => pos ≤ p2 ∧ p2 ≤ len
  | .error e => pos ≤ e.position ∧ e.position ≤ len

theorem exbind_ok {α β : Type} (a : α) (f : α → Except JSONParseError β) :
    (Except.ok a >>= f) = f a := rfl

theorem exbind_error {α β : Type} (e : JSONParseError) (f : α → Except JSONParseError β) :
    ((Except.error e : Except JSONParseError α) >>= f) = Except.error e := rfl

theorem posBound_mk_error {pos len p : Nat} {m : String}
    (h1 : pos ≤ p) (h2 : p ≤ len) :
    posBound pos len (.error ⟨m, p⟩) := ⟨h1, h2⟩

theorem posBound_mk_ok {pos len p : Nat} (h1 : pos ≤ p) (h2 : p ≤ len) :
    posBound pos len (.ok p) := ⟨h1, h2⟩

theorem numSignPos_bound (input : JSStr) (start : Nat) (h : start ≤ input.length) :
    posBound start input.length (numSignPos input start) := by
  unfold numSignPos
  split
  · next hq =>
    have hlt : start < input.length := lt_length_of_getElem?_eq_some hq
    split
    · next hd => exact posBound_mk_ok (Nat.le_succ _) (Nat.le_of_lt (digitAt_lt_length hd))
    · exact posBound_mk_error (Nat.le_succ _) hlt
  · exact posBound_mk_ok (Nat.le_refl _) h

theorem numIntEnd_bound (input : JSStr) (pos : Nat) (h : pos ≤ input.length) :
    posBound pos input.length (numIntEnd input pos) := by
  unfold numIntEnd
  split
  · next hq =>
    have hlt : pos < input.length := lt_length_of_getElem?_eq_some hq
    split
    · next hd => exact posBound_mk_error (Nat.le_succ _) (Nat.le_of_lt (digitAt_lt_length hd))
    · exact posBound_mk_ok (Nat.le_succ _) hlt
  · split
    · exact posBound_mk_ok (skipDigits_ge input pos) (skipDigits_le input pos h)
    · exact posBound_mk_error (Nat.le_refl _) h

theorem numFracEnd_bound (input : JSStr) (pos : Nat) (h : pos ≤ input.length) :
    posBound pos input.length (numFracEnd input pos) := by
  unfold numFracEnd
  split
  · next hq =>
    have hlt : pos < input.length := lt_length_of_getElem?_eq_some hq
    split
    · next hd =>
      refine posBound_mk_ok ?_ (skipDigits_le input (pos + 1) (Nat.le_of_lt (digitAt_lt_length hd)))
      exact Nat.le_trans (Nat.le_succ _) (skipDigits_ge input (pos + 1))
    · exact posBound_mk_error (Nat.le_succ _) hlt
  · exact posBound_mk_ok (Nat.le_refl _) h

theorem numExpEnd_bound (input : JSStr) (pos : Nat) (h : pos ≤ input.length) :
    posBound pos input.length (numExpEnd input pos) := by
  have hb : ∀ pos2, pos ≤ pos2 → pos2 ≤ input.length →
      posBound pos input.length
        (if digitAt input pos2 = true then Except.ok (skipDigits input pos2)
         else Except.error ⟨"Invalid number: exponent must contain digits", pos2⟩) := by
    intro pos2 hp2 hp2le
    split
    · next hd =>
      refine posBound_mk_ok ?_ (skipDigits_le input pos2 hp2le)
      exact Nat.le_trans hp2 (skipDigits_ge input pos2)
    · exact posBound_mk_error hp2 hp2le
  have harm : ∀ hlt : pos < input.length,
      posBound pos input.length
        (let pos2 : Nat :=
          if input[pos + 1]? == some 0x2B || input[pos + 1]? == some 0x2D then pos + 2
          else pos + 1
         if digitAt input pos2 = true then Except.ok (skipDigits input pos2)
         else Except.error ⟨"Invalid number: exponent must contain digits", pos2⟩) := by
    intro hlt
    by_cases hs : (input[pos + 1]? == some 0x2B || input[pos + 1]? == some 0x2D) = true
    · rw [if_pos hs]
      have hlt2 : pos + 1 < input.length := by
        rcases Bool.or_eq_true_iff.mp hs with h2 | h2
        · exact lt_length_of_getElem?_eq_some (beq_iff_eq.mp h2)
        · exact lt_length_of_getElem?_eq_some (beq_iff_eq.mp h2)
      exact hb _ (by omega) (by omega)
    · rw [if_neg hs]
      exact hb _ (by omega) (by omega)
  unfold numExpEnd
  split
  · next hq => exact harm (lt_length_of_getElem?_eq_some hq)
  · next hq => exact harm (lt_length_of_getElem?_eq_some hq)
  · exact posBound_mk_ok (Nat.le_refl _) h

theorem parseNumber_bound (input : JSStr) (start : Nat) (h : start ≤ input.length) :
    resBound start input.length (parseNumber input start) := by
  unfold parseNumber
  rcases h1 : numSignPos input start with e1 | p1
  · rw [exbind_error]
    have := numSignPos_bound input start h
    rw [h1] at this
    exact this
  · have hb1 := numSignPos_bound input start h
    rw [h1] at hb1
    simp only [exbind_ok]
    rcases h2 : numIntEnd input p1 with e2 | p2
    · rw [exbind_error]
      have := numIntEnd_bound input p1 hb1.2
      rw [h2] at this
      exact ⟨Nat.le_trans hb1.1 this.1, this.2⟩
    · have hb2 := numIntEnd_bound input p1 hb1.2
      rw [h2] at hb2
      simp only [exbind_ok]
      rcases h3 : numFracEnd input p2 with e3 | p3
      · rw [exbind_error]
        have := numFracEnd_bound input p2 hb2.2
        rw [h3] at this
        exact ⟨Nat.le_trans (Nat.le_trans hb1.1 hb2.1) this.1, this.2⟩
      · have hb3 := numFracEnd_bound input p2 hb2.2
        rw [h3] at hb3
        simp only [exbind_ok]
        rcases h4 : numExpEnd input p3 with e4 | p4
        · rw [exbind_error]
          have := numExpEnd_bound input p3 hb3.2
          rw [h4] at this
          exact ⟨Nat.le_trans (Nat.le_trans (Nat.le_trans hb1.1 hb2.1) hb3.1) this.1, this.2⟩
        · have hb4 := numExpEnd_bound input p3 hb3.2
          rw [h4] at hb4
          simp only [exbind_ok]
          split
          · exact resBound_mk_ok
              (Nat.le_trans (Nat.le_trans (Nat.le_trans hb1.1 hb2.1) hb3.1) hb4.1) hb4.2
          · exact resBound_mk_error (Nat.le_refl _) h

theorem length_of_slice_eq {l : JSStr} {pos n : Nat} {ds : JSStr}
    (h : (l.drop pos).take n = ds) (hlen : ds.length = n) (hn : 0 < n) :
    pos + n ≤ l.length := by
  have hc := congrArg List.length h
  simp only [List.length_take, List.length_drop] at hc
  omega

theorem parseTrue_bound (input : JSStr) (pos : Nat) (h : pos ≤ input.length) :
    resBound pos input.length (parseTrue input pos) := by
  unfold parseTrue
  split
  · next hq =>
    exact resBound_mk_ok (Nat.le_add_right _ _)
      (length_of_slice_eq (beq_iff_eq.mp hq) rfl (by decide))
  · exact resBound_mk_error (Nat.le_refl _) h

theorem parseFalse_bound (input : JSStr) (pos : Nat) (h : pos ≤ input.length) :
    resBound pos input.length (parseFalse input pos) := by
  unfold parseFalse
  split
  · next hq =>
    exact resBound_mk_ok (Nat.le_add_right _ _)
      (length_of_slice_eq (beq_iff_eq.mp hq) rfl (by decide))
  · exact resBound_mk_error (Nat.le_refl _) h

theorem parseNull_bound (input : JSStr) (pos : Nat) (h : pos ≤ input.length) :
    resBound pos input.length (parseNull input pos) := by
  unfold parseNull
  split
  · next hq =>
    exact resBound_mk_ok (Nat.le_add_right _ _)
      (length_of_slice_eq (beq_iff_eq.mp hq) rfl (by decide))
  · exact resBound_mk_error (Nat.le_refl _) h

/-- Cursor bounds for every mutually recursive routine of the parser, by
induction on the fuel: entered within bounds, each routine's resulting
cursor (or reported error position) lies between the entry cursor and the
input length. -/
theorem parserBounds : ∀ fuel : Nat,
    (∀ input pos r, pos ≤ input.length → parseValueF fuel input pos = r →
      resBound pos input.length r) ∧
    (∀ input pos r, pos < input.length → parseObjectF fuel input pos = r →
      resBound pos input.length r) ∧
    (∀ input pos entries r, pos ≤ input.length →
      parseObjectEntryF fuel input pos entries = r → resBound pos input.length r) ∧
    (∀ input pos entries first r, pos ≤ input.length →
      parseObjectLoopF fuel input pos entries first = r → resBound pos input.length r) ∧
    (∀ input pos r, pos < input.length → parseArrayF fuel input pos = r →
      resBound pos input.length r) ∧
    (∀ input pos elems first r, pos ≤ input.length →
      parseArrayLoopF fuel input pos elems first = r → resBound pos input.length r) := by
  intro fuel
  induction fuel with
  | zero =>
    refine ⟨fun input pos r h hr => ?_, fun input pos r h hr => ?_,
      fun input pos entries r h hr => ?_, fun input pos entries first r h hr => ?_,
      fun input pos r h hr => ?_, fun input pos elems first r h hr => ?_⟩
    · rw [parseValueF] at hr; subst hr; exact resBound_mk_error (Nat.le_refl _) h
    · rw [parseObjectF] at hr; subst hr
      exact resBound_mk_error (Nat.le_refl _) (Nat.le_of_lt h)
    · rw [parseObjectEntryF] at hr; subst hr; exact resBound_mk_error (Nat.le_refl _) h
    · rw [parseObjectLoopF] at hr; subst hr; exact resBound_mk_error (Nat.le_refl _) h
    · rw [parseArrayF] at hr; subst hr
      exact resBound_mk_error (Nat.le_refl _) (Nat.le_of_lt h)
    · rw [parseArrayLoopF] at hr; subst hr; exact resBound_mk_error (Nat.le_refl _) h
  | succ n ih =>
    obtain ⟨ihV, ihO, ihE, ihL, ihA, ihAL⟩ := ih
    refine ⟨?_, ?_, ?_, ?_, ?_, ?_⟩
    · -- parseValueF
      intro input pos0 r h hr
      rw [parseValueF] at hr
      simp only [] at hr
      generalize hsw : skipWhitespace input pos0 = sw at hr
      have hge : pos0 ≤ sw := hsw ▸ skipWhitespace_ge input pos0
      have hle : sw ≤ input.length := hsw ▸ skipWhitespace_le input pos0 h
      have hwrap : ∀ {β : Type} (f : Except JSONParseError (β × Nat)) (g : β → JSONValue),
          resBound sw input.length f →
          (f >>= fun x => Except.ok (g x.1, x.2)) = r → resBound pos0 input.length r := by
        intro β f g hf heq
        rcases f with e | x
        · rw [exbind_error] at heq; subst heq; exact resBound_weaken hge hf
        · rw [exbind_ok] at heq; subst heq
          exact ⟨Nat.le_trans hge hf.1, hf.2⟩
      split at hr
      · subst hr; exact resBound_mk_error hge hle
      · next c heq =>
        have hcl : sw < input.length := lt_length_of_getElem?_eq_some heq
        split at hr
        all_goals first
          | (subst hr; exact resBound_mk_error hge hle)
          | exact resBound_weaken hge (ihO input sw r hcl hr)
          | exact resBound_weaken hge (ihA input sw r hcl hr)
          | exact hwrap _ _ (parseString_bound input sw hcl) hr
          | exact hwrap _ _ (parseTrue_bound input sw hle) hr
          | exact hwrap _ _ (parseFalse_bound input sw hle) hr
          | exact hwrap _ (fun _ => JSONValue.null) (parseNull_bound input sw hle) hr
          | exact hwrap _ _ (parseNumber_bound input sw hle) hr
    · -- parseObjectF
      intro input pos0 r h hr
      rw [parseObjectF] at hr
      try simp only [] at hr
      generalize hsw : skipWhitespace input (pos0 + 1) = sw at hr
      have hge : pos0 + 1 ≤ sw := hsw ▸ skipWhitespace_ge input (pos0 + 1)
      have hle : sw ≤ input.length := hsw ▸ skipWhitespace_le input (pos0 + 1) h
      split at hr
      · next heq =>
        subst hr
        exact resBound_mk_ok (by omega) (lt_length_of_getElem?_eq_some heq)
      all_goals exact resBound_weaken (by omega) (ihL input sw [] true r hle hr)
    · -- parseObjectEntryF
      intro input pos0 entries r h hr
      rw [parseObjectEntryF] at hr
      simp only [] at hr
      generalize hsw : skipWhitespace input pos0 = posB at hr
      have hge : pos0 ≤ posB := hsw ▸ skipWhitespace_ge input pos0
      have hle : posB ≤ input.length := hsw ▸ skipWhitespace_le input pos0 h
      split at hr
      · next heq =>
        have hcl : posB < input.length := lt_length_of_getElem?_eq_some heq
        rcases hps : parseString input posB with e | kp
        · rw [hps, exbind_error] at hr; subst hr
          have hb := parseString_bound input posB hcl
          rw [hps] at hb
          exact resBound_weaken hge hb
        · obtain ⟨key, posC⟩ := kp
          have hb := parseString_bound input posB hcl
          rw [hps] at hb
          have hb1 : posB ≤ posC := hb.1
          have hb2 : posC ≤ input.length := hb.2
          rw [hps] at hr; rw [exbind_ok] at hr; simp only [] at hr
          generalize hsw2 : skipWhitespace input posC = posD at hr
          have hge2 : posC ≤ posD := hsw2 ▸ skipWhitespace_ge input posC
          have hle2 : posD ≤ input.length := hsw2 ▸ skipWhitespace_le input posC hb2
          split at hr
          · next heq2 =>
            have hcl2 : posD < input.length := lt_length_of_getElem?_eq_some heq2
            rcases hv : parseValueF n input (posD + 1) with e | vp
            · rw [hv, exbind_error] at hr; subst hr
              have hvb := ihV input (posD + 1) _ hcl2 hv
              exact resBound_weaken (by omega) hvb
            · obtain ⟨v, posE⟩ := vp
              have hvb := ihV input (posD + 1) _ hcl2 hv
              have hv1 : posD + 1 ≤ posE := hvb.1
              have hv2 : posE ≤ input.length := hvb.2
              rw [hv] at hr; rw [exbind_ok] at hr; simp only [] at hr
              subst hr
              exact resBound_mk_ok (by omega) hv2
          all_goals (subst hr; exact resBound_mk_error (by omega) hle2)
      all_goals (subst hr; exact resBound_mk_error hge hle)
    · -- parseObjectLoopF
      intro input pos0 entries first r h hr
      rw [parseObjectLoopF] at hr
      split at hr
      · split at hr
        · rcases hpe : parseObjectEntryF n input pos0 entries with e | ep
          · rw [hpe, exbind_error] at hr; subst hr
            exact ihE input pos0 entries _ h hpe
          · obtain ⟨entries2, pos2⟩ := ep
            have hb := ihE input pos0 entries _ h hpe
            have h1 : pos0 ≤ pos2 := hb.1
            have h2 : pos2 ≤ input.length := hb.2
            rw [hpe] at hr; rw [exbind_ok] at hr; simp only [] at hr
            exact resBound_weaken h1 (ihL input pos2 entries2 false r h2 hr)
        · simp only [] at hr
          generalize hsw : skipWhitespace input pos0 = posA at hr
          have hge : pos0 ≤ posA := hsw ▸ skipWhitespace_ge input pos0
          have hle : posA ≤ input.length := hsw ▸ skipWhitespace_le input pos0 h
          split at hr
          · subst hr; exact resBound_mk_error hge hle
          · next heq =>
            subst hr
            exact resBound_mk_ok (by omega) (lt_length_of_getElem?_eq_some heq)
          · next heq =>
            have hcl : posA < input.length := lt_length_of_getElem?_eq_some heq
            rcases hpe : parseObjectEntryF n input (posA + 1) entries with e | ep
            · rw [hpe, exbind_error] at hr; subst hr
              have hb := ihE input (posA + 1) entries _ hcl hpe
              exact resBound_weaken (by omega) hb
            · obtain ⟨entries2, pos2⟩ := ep
              have hb := ihE input (posA + 1) entries _ hcl hpe
              have h1 : posA + 1 ≤ pos2 := hb.1
              have h2 : pos2 ≤ input.length := hb.2
              rw [hpe] at hr; rw [exbind_ok] at hr; simp only [] at hr
              exact resBound_weaken (by omega) (ihL input pos2 entries2 false r h2 hr)
          · next c heq => subst hr; exact resBound_mk_error hge hle
      · subst hr; exact resBound_mk_error (Nat.le_refl _) h
    · -- parseArrayF
      intro input pos0 r h hr
      rw [parseArrayF] at hr
      try simp only [] at hr
      generalize hsw : skipWhitespace input (pos0 + 1) = sw at hr
      have hge : pos0 + 1 ≤ sw := hsw ▸ skipWhitespace_ge input (pos0 + 1)
      have hle : sw ≤ input.length := hsw ▸ skipWhitespace_le input (pos0 + 1) h
      split at hr
      · next heq =>
        subst hr
        exact resBound_mk_ok (by omega) (lt_length_of_getElem?_eq_some heq)
      all_goals exact resBound_weaken (by omega) (ihAL input sw [] true r hle hr)
    · -- parseArrayLoopF
      intro input pos0 elems first r h hr
      rw [parseArrayLoopF] at hr
      split at hr
      · split at hr
        · rcases hv : parseValueF n input pos0 with e | vp
          · rw [hv, exbind_error] at hr; subst hr
            exact ihV input pos0 _ h hv
          · obtain ⟨v, pos2⟩ := vp
            have hb := ihV input pos0 _ h hv
            have h1 : pos0 ≤ pos2 := hb.1
            have h2 : pos2 ≤ input.length := hb.2
            rw [hv] at hr; rw [exbind_ok] at hr; simp only [] at hr
            exact resBound_weaken h1 (ihAL input pos2 (elems ++ [v]) false r h2 hr)
        · simp only [] at hr
          generalize hsw : skipWhitespace input pos0 = posA at hr
          have hge : pos0 ≤ posA := hsw ▸ skipWhitespace_ge input pos0
          have hle : posA ≤ input.length := hsw ▸ skipWhitespace_le input pos0 h
          split at hr
          · subst hr; exact resBound_mk_error hge hle
          · next heq =>
            subst hr
            exact resBound_mk_ok (by omega) (lt_length_of_getElem?_eq_some heq)
          · next heq =>
            have hcl : posA < input.length := lt_length_of_getElem?_eq_some heq
            rcases hv : parseValueF n input (posA + 1) with e | vp
            · rw [hv, exbind_error] at hr; subst hr
              have hb := ihV input (posA + 1) _ hcl hv
              exact resBound_weaken (by omega) hb
            · obtain ⟨v, pos2⟩ := vp
              have hb := ihV input (posA + 1) _ hcl hv
              have h1 : posA + 1 ≤ pos2 := hb.1
              have h2 : pos2 ≤ input.length := hb.2
              rw [hv] at hr; rw [exbind_ok] at hr; simp only [] at hr
              exact resBound_weaken (by omega) (ihAL input pos2 (elems ++ [v]) false r h2 hr)
          · next c heq => subst hr; exact resBound_mk_error hge hle
      · subst hr; exact resBound_mk_error (Nat.le_refl _) h

theorem skipWhitespaceF_all (input : JSStr)
    (hws : ∀ i (hi : i < input.length), isWhitespace (input[i]) = true) :
    ∀ fuel pos, input.length ≤ pos + fuel → pos ≤ input.length →
      skipWhitespaceF fuel input pos = input.length := by
  intro fuel
  induction fuel with
  | zero =>
    intro pos h1 h2
    rw [skipWhitespaceF]
    omega
  | succ n ih =>
    intro pos h1 h2
    rw [skipWhitespaceF]
    split
    · next u hc =>
      have hlt : pos < input.length := lt_length_of_getElem?_eq_some hc
      have hu : u = input[pos] := by
        rcases List.getElem?_eq_some_iff.mp hc with ⟨h3, h4⟩
        exact h4.symm
      rw [hu, hws pos hlt, if_pos rfl]
      exact ih (pos + 1) (by omega) hlt
    · next hc =>
      have := List.getElem?_eq_none_iff.mp hc
      omega

theorem skipWhitespace_all (input : JSStr) (hws : input.all isWhitespace = true) :
    skipWhitespace input 0 = input.length := by
  have h : ∀ i (hi : i < input.length), isWhitespace (input[i]) = true := by
    intro i hi
    exact List.all_eq_true.mp hws _ (List.getElem_mem hi)
  exact skipWhitespaceF_all input h _ 0 (by omega) (Nat.zero_le _)

/-- Any error escaping `parse` carries a position within `[0, length]`. -/
theorem parseTop_error_le (input : JSStr) (e : JSONParseError)
    (h : parseTop input = .error e) : e.position ≤ input.length := by
  unfold parseTop at h
  simp only [] at h
  generalize hsw : skipWhitespace input 0 = sw at h
  have hle : sw ≤ input.length := hsw ▸ skipWhitespace_le input 0 (Nat.zero_le _)
  split at h
  · injection h with h1
    subst h1
    exact hle
  · rcases hv : parseValueF (4 * (input.length + 1)) input sw with e2 | vp
    · rw [hv, exbind_error] at h
      injection h with h1
      subst h1
      exact ((parserBounds _).1 input sw _ hle hv).2
    · obtain ⟨v, pos2⟩ := vp
      have hvb := (parserBounds _).1 input sw _ hle hv
      have hv2 : pos2 ≤ input.length := hvb.2
      rw [hv] at h; rw [exbind_ok] at h; simp only [] at h
      generalize hsw2 : skipWhitespace input pos2 = posE at h
      have hle2 : posE ≤ input.length := hsw2 ▸ skipWhitespace_le input pos2 hv2
      split at h
      · injection h with h1
        subst h1
        exact hle2
      · exact Except.noConfusion h

theorem objInsert_find_overwrite (k : JSStr) (v : JSONValue) :
    ∀ entries : List (JSStr × JSONValue), entries.any (fun e => e.1 == k) = true →
      (entries.map (fun e => if e.1 == k then (k, v) else e)).find?
        (fun e => e.1 == k) = some (k, v)
  | [], h => by simp at h
  | e :: es, h => by
    by_cases hek : (e.1 == k) = true
    · simp only [List.map_cons, if_pos hek]
      exact List.find?_cons_of_pos _ (by simp)
    · have h2 : es.any (fun e => e.1 == k) = true := by
        simp only [List.any_cons, hek, Bool.false_or] at h
        exact h
      simp only [List.map_cons, if_neg hek]
      rw [List.find?_cons_of_neg _ (by simp at hek ⊢; exact hek)]
      exact objInsert_find_overwrite k v es h2

/-- The property-store update `obj[key] = value` really binds `key` to
`value`: looking the key up in the updated store yields the stored value,
whether the key was fresh or overwritten. -/
theorem objInsert_lookup (entries : List (JSStr × JSONValue)) (k : JSStr) (v : JSONValue) :
    objLookup (objInsert entries k v) k = some v := by
  unfold objInsert objLookup
  by_cases hmem : entries.any (fun e => e.1 == k) = true
  · rw [if_pos hmem, objInsert_find_overwrite k v entries hmem]
    rfl
  · rw [if_neg hmem]
    have hnone : entries.find? (fun e => e.1 == k) = none := by
      rw [List.find?_eq_none]
      intro x hx hpx
      exact hmem (List.any_eq_true.mpr ⟨x, hx, hpx⟩)
    rw [List.find?_append, hnone, Option.none_or, List.find?_cons_of_pos _ (by simp)]
    rfl

/-- When no key is an ECMAScript array index, `OrdinaryOwnPropertyKeys`
enumerates exactly the property-creation (insertion) order. -/
theorem jsOwnKeys_no_index (entries : List (JSStr × JSONValue))
    (h : ∀ k ∈ entries.map Prod.fst, isArrayIndexKey k = false) :
    jsOwnKeys entries = entries.map Prod.fst := by
  unfold jsOwnKeys
  have h1 : (entries.map Prod.fst).filter isArrayIndexKey = [] := by
    rw [List.filter_eq_nil_iff]
    intro a ha
    simp [h a ha]
  have h2 : (entries.map Prod.fst).filter (fun k => !isArrayIndexKey k) =
      entries.map Prod.fst := by
    rw [List.filter_eq_self]
    intro a ha
    simp [h a ha]
  simp only [h1, h2]
  rfl

/-- C1 (counterexample): the claim that every parse error is positioned at
the first grammar-violating character fails on `parse("falsy")`.  The prefix
`fals` is a prefix of the valid literal `false`, so the first violating
character is the `y` at index 4; but `parseTrue`/`parseFalse`/`parseNull`
anchor their error at the position where literal matching began, so the
reported position is 0. -/
theorem c1_counterexample :
    parseJSON "falsy" = .error ⟨"Expected \x27false\x27", 0⟩ ∧ (0 : Nat) ≠ 4 :=
  ⟨rfl, by decide⟩

/-- C1 (amended): every error escaping `parse` carries a position within
`[0, input.length]` (the lower bound holds because positions are natural
numbers), but the position is the cursor value at the detection site, which
for literal-keyword mismatches and unicode-escape errors is the start of the
construct rather than the first violating character, and for an input that
ends inside a literal keyword is the keyword start rather than the input
length. -/
theorem c1_error_position_within_input (input : JSStr) (e : JSONParseError)
    (h : parseTop input = .error e) : e.position ≤ input.length :=
  parseTop_error_le input e h

theorem c1_error_position_within_input_witness :
    (⟨"Unexpected token \x27x\x27", (0 : Nat)⟩ : JSONParseError).position ≤
      (jsOfString "x").length :=
  c1_error_position_within_input (jsOfString "x") _ rfl

/-- C3 (counterexample): on input `{"a":1 ` (note the trailing space) the
input is exhausted before any `}` is seen, yet the parser fails with
`Unexpected end of JSON input` (thrown by the member loop's
delimiter-scanning step, line 108 of the source) — not `Unterminated
object` as the claim demands.  The third conjunct records that position 7
is indeed the exhaustion point (the input length). -/
theorem c3_counterexample :
    parseJSON "\x7b\"a\":1 " = .error ⟨"Unexpected end of JSON input", 7⟩ ∧
      "Unexpected end of JSON input" ≠ "Unterminated object" ∧
      (jsOfString "\x7b\"a\":1 ").length = 7 :=
  ⟨rfl, by decide, by decide⟩

/-- C3 (amended): `Unterminated object` (at the exhaustion position) is
raised exactly when the member loop re-checks its `while` guard with the
cursor at or past the end of input — i.e. immediately after `{` plus
whitespace for a non-empty object, or right after a completed `key:value`
member.  Exhaustion detected at the other points of object parsing surfaces
as `Unexpected end of JSON input`, `Expected string key`, `Expected ':'
after key`, or an error of the sub-parsers instead. -/
theorem c3_unterminated_object_at_loop_guard (fuel : Nat) (input : JSStr) (pos : Nat)
    (entries : List (JSStr × JSONValue)) (first : Bool) (h : input.length ≤ pos) :
    parseObjectLoopF (fuel + 1) input pos entries first =
      .error ⟨"Unterminated object", pos⟩ := by
  rw [parseObjectLoopF]
  rw [if_neg (by omega)]

theorem c3_unterminated_object_at_loop_guard_witness :
    parseObjectLoopF 1 [] 0 [] true = .error ⟨"Unterminated object", 0⟩ :=
  c3_unterminated_object_at_loop_guard 0 [] 0 [] true (by decide)

/-- C4: the store `obj[key] = value` binds the key to the value of its most
recent occurrence — looking up the inserted key always yields the value
just stored, whether the key is fresh or a repeat — and in particular
`parse('{"a":1,"a":2}')` produces the single-entry object in which key
`"a"` (unit 0x61) maps to the number literal `2`. -/
theorem c4_duplicate_keys_last_write_wins :
    (∀ (entries : List (JSStr × JSONValue)) (k : JSStr) (v : JSONValue),
      objLookup (objInsert entries k v) k = some v) ∧
    parseJSON "\x7b\"a\":1,\"a\":2\x7d" = .ok (.obj [([0x61], .num [0x32])]) :=
  ⟨objInsert_lookup, rfl⟩

/-- C9: cursor soundness.  Entered within bounds, value parsing (for any
fuel), string parsing, number parsing and whitespace skipping each leave
the cursor between its entry value and the input length — the cursor never
retreats and never leaves `[0, length]` (the lower bound 0 holds because
positions are natural numbers); on failure the reported error position
satisfies the same bounds. -/
theorem c9_cursor_bounds :
    (∀ (fuel : Nat) (input : JSStr) (pos : Nat) (v : JSONValue) (p2 : Nat),
      pos ≤ input.length → parseValueF fuel input pos = .ok (v, p2) →
      pos ≤ p2 ∧ p2 ≤ input.length) ∧
    (∀ (fuel : Nat) (input : JSStr) (pos : Nat) (e : JSONParseError),
      pos ≤ input.length → parseValueF fuel input pos = .error e →
      pos ≤ e.position ∧ e.position ≤ input.length) ∧
    (∀ (input : JSStr) (pos : Nat) (s : JSStr) (p2 : Nat),
      pos < input.length → parseString input pos = .ok (s, p2) →
      pos ≤ p2 ∧ p2 ≤ input.length) ∧
    (∀ (input : JSStr) (pos : Nat) (lit : JSStr) (p2 : Nat),
      pos ≤ input.length → parseNumber input pos = .ok (lit, p2) →
      pos ≤ p2 ∧ p2 ≤ input.length) ∧
    (∀ (input : JSStr) (pos : Nat), pos ≤ input.length →
      pos ≤ skipWhitespace input pos ∧ skipWhitespace input pos ≤ input.length) := by
  refine ⟨?_, ?_, ?_, ?_, ?_⟩
  · intro fuel input pos v p2 h hr
    exact (parserBounds fuel).1 input pos _ h hr
  · intro fuel input pos e h hr
    exact (parserBounds fuel).1 input pos _ h hr
  · intro input pos s p2 h hr
    have hb := parseString_bound input pos h
    rw [hr] at hb
    exact hb
  · intro input pos lit p2 h hr
    have hb := parseNumber_bound input pos h
    rw [hr] at hb
    exact hb
  · intro input pos h
    exact ⟨skipWhitespace_ge input pos, skipWhitespace_le input pos h⟩

theorem c9_cursor_bounds_witness :
    (0 : Nat) ≤ 1 ∧ 1 ≤ List.length [0x31] :=
  c9_cursor_bounds.1 8 [0x31] 0 (.num [0x31]) 1 (by decide) rfl

/-- C10: when number parsing starts at a `-` that is not immediately
followed by a decimal digit (including when the `-` is the last character),
it fails with `Invalid number format` at the position one past the `-`; in
particular `parse("-")` fails there, at position 1. -/
theorem c10_minus_without_digit :
    (∀ (input : JSStr) (pos : Nat), input[pos]? = some 0x2D →
      digitAt input (pos + 1) = false →
      parseNumber input pos = .error ⟨"Invalid number format", pos + 1⟩) ∧
    parseJSON "-" = .error ⟨"Invalid number format", 1⟩ := by
  refine ⟨?_, rfl⟩
  intro input pos hm hd
  simp [parseNumber, numSignPos, hm, hd, exbind_error]

theorem c10_minus_without_digit_witness :
    parseNumber [0x2D] 0 = .error ⟨"Invalid number format", 1⟩ :=
  c10_minus_without_digit.1 [0x2D] 0 rfl rfl

/-- C2 (counterexample): insertion order is not always the enumeration
order.  The object text `{"1":null,"0":null}` parses to a property list
whose creation order is `"1", "0"`, but both keys are ECMAScript array
indices, so the own-property enumeration used by `Object.keys` /
`JSON.stringify` (the output path of `src/main.ts`) yields `"0", "1"` —
ascending numeric order, not first-appearance order. -/
theorem c2_counterexample :
    parseJSON "\x7b\"1\":null,\"0\":null\x7d" =
        .ok (.obj [([0x31], .null), ([0x30], .null)]) ∧
      jsOwnKeys [([0x31], JSONValue.null), ([0x30], JSONValue.null)] = [[0x30], [0x31]] ∧
      ([[0x30], [0x31]] : List JSStr) ≠ [[0x31], [0x30]] :=
  ⟨rfl, rfl, by decide⟩

/-- C2 (amended): for every input that parses to an object none of whose
keys is an ECMAScript array index (a canonical decimal numeral below
`2^32 - 1`), enumeration yields the keys in property-creation order, which
is the order their entries first appeared in the input text (`objInsert`
appends a fresh key and keeps an existing key in place).  Array-index keys
are instead enumerated first, in ascending numeric order. -/
theorem c2_insertion_order_for_non_index_keys (input : JSStr)
    (entries : List (JSStr × JSONValue))
    (h : parseTop input = .ok (.obj entries))
    (hk : ∀ k ∈ entries.map Prod.fst, isArrayIndexKey k = false) :
    jsOwnKeys entries = entries.map Prod.fst :=
  jsOwnKeys_no_index entries hk

theorem c2_insertion_order_for_non_index_keys_witness :
    jsOwnKeys [([0x62], JSONValue.num [0x30]), ([0x61], JSONValue.num [0x30])] =
      [[0x62], [0x61]] :=
  c2_insertion_order_for_non_index_keys (jsOfString "\x7b\"b\":0,\"a\":0\x7d")
    [([0x62], JSONValue.num [0x30]), ([0x61], JSONValue.num [0x30])] rfl (by decide)

/-- C8: the empty input fails with `Unexpected end of JSON input` at
position 0, and more generally any input consisting only of whitespace
fails with the same error at the cursor position reached after skipping it
all, namely the input length. -/
theorem c8_empty_and_whitespace_inputs :
    parseJSON "" = .error ⟨"Unexpected end of JSON input", 0⟩ ∧
    (∀ input : JSStr, input.all isWhitespace = true →
      parseTop input = .error ⟨"Unexpected end of JSON input", input.length⟩) := by
  refine ⟨rfl, ?_⟩
  intro input hws
  unfold parseTop
  simp only []
  rw [skipWhitespace_all input hws, List.getElem?_eq_none (Nat.le_refl _)]

theorem c8_empty_and_whitespace_inputs_witness :
    parseTop [0x20, 0x09, 0x0A] = .error ⟨"Unexpected end of JSON input", 3⟩ :=
  c8_empty_and_whitespace_inputs.2 [0x20, 0x09, 0x0A] rfl

/-- C5: inside a string, a raw code unit below 0x20 other than tab (0x09)
aborts with `Unescaped control character` at that unit's position, while a
raw tab is appended to the accumulated result verbatim and scanning
continues; concretely, `"a<TAB>b"` parses to the three-unit string and
`"a<SOH>b"` fails at the control character's position 2. -/
theorem c5_control_chars_banned_except_tab :
    (∀ (fuel : Nat) (input : JSStr) (pos : Nat) (acc : JSStr) (u : Nat),
      input[pos]? = some u → u < 0x20 → u ≠ 0x09 →
      parseStringLoop (fuel + 1) input pos acc =
        .error ⟨"Unescaped control character (code " ++ toString u ++ ")", pos⟩) ∧
    (∀ (fuel : Nat) (input : JSStr) (pos : Nat) (acc : JSStr),
      input[pos]? = some 0x09 →
      parseStringLoop (fuel + 1) input pos acc =
        parseStringLoop fuel input (pos + 1) (acc ++ [0x09])) ∧
    parseJSON "\"a\tb\"" = .ok (.str [0x61, 0x09, 0x62]) ∧
    parseJSON "\"a\x01b\"" = .error ⟨"Unescaped control character (code 1)", 2⟩ := by
  refine ⟨?_, ?_, rfl, rfl⟩
  · intro fuel input pos acc u hu hlt hne
    have h22 : (u == 0x22) = false := beq_eq_false_iff_ne.mpr (by omega)
    have h5C : (u == 0x5C) = false := beq_eq_false_iff_ne.mpr (by omega)
    have hctrl : (decide (u < 0x20) && u != 0x09) = true := by
      simp [hlt, hne]
    simp [parseStringLoop, hu, h22, h5C, hctrl]
  · intro fuel input pos acc hu
    simp [parseStringLoop, hu]

theorem c5_control_chars_banned_except_tab_witness :
    parseStringLoop 3 [0x01] 0 [] =
        .error ⟨"Unescaped control character (code 1)", 0⟩ ∧
      parseStringLoop 3 [0x09, 0x22] 0 [] = parseStringLoop 2 [0x09, 0x22] 1 [0x09] :=
  ⟨c5_control_chars_banned_except_tab.1 2 [0x01] 0 [] 1 rfl (by decide) (by decide),
   c5_control_chars_banned_except_tab.2.1 2 [0x09, 0x22] 0 [] rfl⟩

/-- C6: a `\u` escape whose following 4 units exist and all match
`[0-9a-fA-F]` is decoded by `parseInt(hex, 16)` into a single UTF-16 code
unit that is appended directly to the accumulator — one unit per escape,
with no surrogate-pair combination — and the cursor moves past the escape;
when the 4 units do not all match, parsing fails with `Invalid unicode
escape sequence` (anchored at the `u`); and `parse('"\\u0041"')` yields the
one-character string `"A"`. -/
theorem c6_unicode_escape :
    (∀ (fuel : Nat) (input : JSStr) (pos : Nat) (acc : JSStr) (a b c d : Nat),
      input[pos]? = some 0x5C → input[pos + 1]? = some 0x75 →
      (input.drop (pos + 2)).take 4 = [a, b, c, d] →
      isHexDigit a = true → isHexDigit b = true →
      isHexDigit c = true → isHexDigit d = true →
      parseStringLoop (fuel + 1) input pos acc =
        parseStringLoop fuel input (pos + 6) (acc ++ [hexNum [a, b, c, d]])) ∧
    (∀ (fuel : Nat) (input : JSStr) (pos : Nat) (acc : JSStr) (a b c d : Nat),
      input[pos]? = some 0x5C → input[pos + 1]? = some 0x75 →
      (input.drop (pos + 2)).take 4 = [a, b, c, d] →
      ([a, b, c, d].all isHexDigit) = false →
      parseStringLoop (fuel + 1) input pos acc =
        .error ⟨"Invalid unicode escape sequence \\u" ++ unitsToString [a, b, c, d],
          pos + 1⟩) ∧
    parseJSON "\"\\u0041\"" = .ok (.str [0x41]) := by
  refine ⟨?_, ?_, rfl⟩
  · intro fuel input pos acc a b c d hbs hu htake ha hb hc hd
    have hlen : pos + 2 + 4 ≤ input.length := length_of_slice_eq htake rfl (by decide)
    have hguard : ¬(input.length ≤ pos + 5) := by omega
    simp [parseStringLoop, hbs, hu, htake, if_neg hguard, ha, hb, hc, hd]
  · intro fuel input pos acc a b c d hbs hu htake hall
    have hlen : pos + 2 + 4 ≤ input.length := length_of_slice_eq htake rfl (by decide)
    have hguard : ¬(input.length ≤ pos + 5) := by omega
    have hexp : (isHexDigit a && (isHexDigit b && (isHexDigit c &&
        (isHexDigit d && true)))) = false := by
      simpa using hall
    simp [parseStringLoop, hbs, hu, htake, if_neg hguard, hall, hexp]

theorem c6_unicode_escape_witness :
    parseStringLoop 6 [0x22, 0x5C, 0x75, 0x44, 0x38, 0x33, 0x44, 0x22] 1 [] =
        parseStringLoop 5 [0x22, 0x5C, 0x75, 0x44, 0x38, 0x33, 0x44, 0x22] 7 [0xD83D] ∧
      parseStringLoop 6 [0x22, 0x5C, 0x75, 0x5A, 0x5A, 0x5A, 0x5A, 0x22] 1 [] =
        .error ⟨"Invalid unicode escape sequence \\u" ++
          unitsToString [0x5A, 0x5A, 0x5A, 0x5A], 2⟩ :=
  ⟨c6_unicode_escape.1 5 _ 1 [] 0x44 0x38 0x33 0x44 rfl rfl rfl rfl rfl rfl rfl,
   c6_unicode_escape.2.1 5 _ 1 [] 0x5A 0x5A 0x5A 0x5A rfl rfl rfl (by decide)⟩

/-- C7: an integer part that begins with `0` followed by another decimal
digit is rejected with the leading-zero error, positioned at the second
digit — both with and without a leading minus sign — and in particular
`parse("01")` fails with it. -/
theorem c7_leading_zero :
    (∀ (input : JSStr) (pos : Nat), input[pos]? = some 0x30 →
      digitAt input (pos + 1) = true →
      parseNumber input pos =
        .error ⟨"Invalid number: leading zeros not allowed", pos + 1⟩) ∧
    (∀ (input : JSStr) (pos : Nat), input[pos]? = some 0x2D →
      input[pos + 1]? = some 0x30 → digitAt input (pos + 2) = true →
      parseNumber input pos =
        .error ⟨"Invalid number: leading zeros not allowed", pos + 2⟩) ∧
    parseJSON "01" = .error ⟨"Invalid number: leading zeros not allowed", 1⟩ := by
  refine ⟨?_, ?_, rfl⟩
  · intro input pos h0 hd
    simp [parseNumber, numSignPos, numIntEnd, h0, hd, exbind_ok, exbind_error]
  · intro input pos hm h0 hd
    have hd1 : digitAt input (pos + 1) = true := by simp [digitAt, h0, isDigit]
    simp [parseNumber, numSignPos, numIntEnd, hm, h0, hd1, hd, exbind_ok, exbind_error]

theorem c7_leading_zero_witness :
    parseNumber [0x30, 0x31] 0 =
        .error ⟨"Invalid number: leading zeros not allowed", 1⟩ ∧
      parseNumber [0x2D, 0x30, 0x31] 0 =
        .error ⟨"Invalid number: leading zeros not allowed", 2⟩ :=
  ⟨c7_leading_zero.1 [0x30, 0x31] 0 rfl rfl,
   c7_leading_zero.2.1 [0x2D, 0x30, 0x31] 0 rfl rfl rfl⟩

end TsJson
